import Mathlib

/-!
Shallow embedding of the amazon-price-monitor price-collection pipeline
(src/utils.py, src/scraper.py) and verification of its specification.

Modelling conventions:
* Python `float` values are modelled as exact rationals (`ℚ`); all prices in
  this code base are decimal currency amounts, parsed from decimal strings.
* Strings are modelled as `List Char`; Python `None`/optional results as
  `Option`.
* The two regular expressions used by `utils.extract_price`
  (`R\$\s*([\d\.\,]+)` and `\d+(?:[\.,]\d+)?`) are embedded as explicit
  left-to-right scanners with `re.findall` semantics (leftmost,
  non-overlapping, greedy).  The scanners recurse on an explicit fuel
  argument (initialised to the text length, which bounds the number of
  scanning steps) so that they are structurally recursive and computable
  by  kernel reduction; fuel-independence is proved below.
* HTML documents reaching `parse_price_from_html` are abstracted by the
  results of the BeautifulSoup selections the function performs (`Doc`
  below); the function's own logic (candidate pooling, filtering, `min`)
  is embedded faithfully.
-/

namespace PriceMonitor

attribute [local semireducible] Rat.mul Rat.add Rat.inv Rat.sub

/-! ### Generic list helpers -/

theorem length_dropWhile_le {α : Type} (p : α → Bool) :
    ∀ l : List α, (l.dropWhile p).length ≤ l.length
  | [] => le_refl _
  | a :: l => by
    simp only [List.dropWhile]
    split
    · exact (length_dropWhile_le p l).trans (Nat.le_succ _)
    · exact le_refl _

/-! ### `utils.extract_price` (src/utils.py)

```python
def extract_price(text):
    if not text: return None
    text = re.sub(r"\s+", " ", text)
    candidates = []
    for match in re.findall(r"R\$\s*([\d\.\,]+)", text):
        cleaned = match.replace(".", "").replace(",", ".")
        try:
            value = float(cleaned)
            if value > 1: candidates.append(value)
        except ValueError: continue
    if candidates: return max(candidates)
    for match in re.findall(r"\d+(?:[\.,]\d+)?", text):
        cleaned = match.replace(".", "").replace(",", ".")
        try:
            value = float(cleaned)
            if value > 1: return value
        except ValueError: continue
    return None
```
-/

/-- ASCII whitespace, the `\s` class for the inputs this program handles. -/
def isWs (c : Char) : Bool :=
  c = ' ' || c = '\t' || c = '\n' || c = '\r' || c = '\x0b' || c = '\x0c'

/-- The character class `[\d\.\,]` of the first regex. -/
def isPriceChar (c : Char) : Bool := c.isDigit || c = '.' || c = ','

/-- Python `re.sub(r"\s+", " ", text)`: every maximal whitespace run becomes one
space. -/
def normSpaces : List Char → List Char
  | [] => []
  | [c] => if isWs c then [' '] else [c]
  | c :: d :: rest =>
    if isWs c && isWs d then normSpaces (d :: rest)
    else (if isWs c then ' ' else c) :: normSpaces (d :: rest)

/-- One fuel step of the scanner for `re.findall(r"R\$\s*([\d\.\,]+)", text)`:
at a literal `R$` skip whitespace and capture a maximal nonempty run of
`[\d\.\,]`; on failure resume one position later, on success resume after
the match. -/
def findRSF : ℕ → List Char → List (List Char)
  | 0, _ => []
  | _ + 1, [] => []
  | fuel + 1, c :: rest =>
    if c = 'R' ∧ rest.headD 'x' = '$' then
      let rest2 := rest.tail
      let afterWs := rest2.dropWhile isWs
      let grp := afterWs.takeWhile isPriceChar
      if grp = [] then findRSF fuel ('$' :: rest2)
      else grp :: findRSF fuel (afterWs.dropWhile isPriceChar)
    else findRSF fuel rest

/-- The scan `re.findall(r"R\$\s*([\d\.\,]+)", text)`. -/
def findRS (l : List Char) : List (List Char) := findRSF l.length l

/-- Python `match.replace(".", "").replace(",", ".")`. -/
def clean (m : List Char) : List Char :=
  (m.filter fun c => !(c = '.')).map fun c => if c = ',' then '.' else c

/-- Numeric value of a digit string (most significant first). -/
def digitsToNat (ds : List Char) : ℕ :=
  ds.foldl (fun acc c => acc * 10 + (c.toNat - '0'.toNat)) 0

/-- Python `float(s)` restricted to the strings produced by `clean`
(digits and dots): succeeds iff there is at most one dot and at least one
digit, and yields the exact decimal value; otherwise `ValueError`
(`none`). -/
def parseFloat (s : List Char) : Option ℚ :=
  if (∀ c ∈ s, c.isDigit ∨ c = '.') ∧ s.count '.' ≤ 1 ∧ (∃ c ∈ s, c.isDigit = true) then
    let intPart := s.takeWhile fun c => !(c = '.')
    let fracPart := (s.dropWhile fun c => !(c = '.')).drop 1
    some ((digitsToNat intPart : ℚ) + (digitsToNat fracPart : ℚ) / (10 ^ fracPart.length))
  else none

/-- Parse one regex-1 match and keep it only when its value exceeds 1
(the loop body of strategy 1 in `extract_price`). -/
def rsValue (m : List Char) : Option ℚ :=
  match parseFloat (clean m) with
  | some v => if 1 < v then some v else none
  | none => none

/-- The candidate pool built by the `R$` loop of `extract_price`, on the
already-normalised text. -/
def rsCandidates (t : List Char) : List ℚ :=
  (findRS t).filterMap rsValue

/-- One fuel step of the scanner for `re.findall(r"\d+(?:[\.,]\d+)?", text)`:
maximal digit run, optionally followed by one separator and a further
maximal digit run. -/
def findNumF : ℕ → List Char → List (List Char)
  | 0, _ => []
  | _ + 1, [] => []
  | fuel + 1, c :: rest =>
    if c.isDigit then
      let ds := (c :: rest).takeWhile Char.isDigit
      let rest2 := (c :: rest).dropWhile Char.isDigit
      if (rest2.headD 'x' = '.' ∨ rest2.headD 'x' = ',') ∧ (rest2.tail.headD 'x').isDigit then
        (ds ++ rest2.headD 'x' :: rest2.tail.takeWhile Char.isDigit)
          :: findNumF fuel (rest2.tail.dropWhile Char.isDigit)
      else ds :: findNumF fuel rest2
    else findNumF fuel rest

/-- The scan `re.findall(r"\d+(?:[\.,]\d+)?", text)`. -/
def findNum (l : List Char) : List (List Char) := findNumF l.length l

/-- The fallback loop of `extract_price`: first match whose value
exceeds 1. -/
def fallbackFirst : List (List Char) → Option ℚ
  | [] => none
  | m :: rest =>
    match parseFloat (clean m) with
    | some v => if 1 < v then some v else fallbackFirst rest
    | none => fallbackFirst rest

/-- The function `utils.extract_price`. -/
def extract_price (text : List Char) : Option ℚ :=
  if text = [] then none
  else
    let t := normSpaces text
    match rsCandidates t with
    | [] => fallbackFirst (findNum t)
    | v :: vs => some (vs.foldl max v)

example : extract_price "R$ 1.234,56".toList = some (123456 / 100) := by decide
example : extract_price "R$ 3.379,00".toList = some 3379 := by decide
example : extract_price "por R$3.199,90 antes R$ 4.000,00".toList = some 4000 := by decide
example : extract_price "R$ 0,50".toList = none := by decide
example : extract_price "".toList = none := by decide
example : extract_price "preco 12,5 reais".toList = some (125 / 10) := by decide
example : extract_price "R$ 2116,05 ou R$ 158,00".toList = some (211605 / 100) := by decide

/-! ### `scraper.get_price_stats` and `scraper.is_price_outlier`

```python
def get_price_stats(conn, product_id):
    cur.execute("SELECT price FROM prices WHERE product_id = ? AND price IS NOT NULL "
                "ORDER BY date DESC LIMIT 30", (product_id,))
    rows = [r[0] for r in cur.fetchall() if r[0] is not None and r[0] > 0]
    if len(rows) < 3: return None
    med = statistics.median(rows); mean = statistics.mean(rows)
    return {"count": len(rows), "median": med, "mean": mean,
            "min": min(rows), "max": max(rows)}
```

The per-product price history is modelled as the list of the `price`
column of the product's rows in timestamp-descending order (what the
query's `ORDER BY date DESC` delivers), with `none` for SQL `NULL`.
-/

/-- Ascending sort (the `sorted(data)` inside `statistics.median`). -/
def sortAsc (l : List ℚ) : List ℚ := l.insertionSort (· ≤ ·)

/-- Python `statistics.median`: middle element of the sorted data for odd length,
average of the two middle elements for even length.  (The Python function
raises on empty data; the embedding returns a junk value there — the
program only calls it on lists of length ≥ 3.) -/
def pyMedian (l : List ℚ) : ℚ :=
  let s := sortAsc l
  let n := s.length
  if n % 2 = 1 then s.getD (n / 2) 0
  else (s.getD (n / 2 - 1) 0 + s.getD (n / 2) 0) / 2

/-- Python `min` over a list (junk value on `[]`, never used by the code). -/
def pyMin : List ℚ → ℚ
  | [] => 0
  | a :: l => l.foldl min a

/-- Python `max` over a list (junk value on `[]`, never used by the code). -/
def pyMax : List ℚ → ℚ
  | [] => 0
  | a :: l => l.foldl max a

/-- The qualifying sample set of `get_price_stats`: the SQL query keeps
non-null prices of the product, most recent 30 (`ORDER BY date DESC
LIMIT 30`); the Python list comprehension then keeps the positive ones. -/
def qualifyingRows (rowsDb : List (Option ℚ)) : List ℚ :=
  ((rowsDb.filterMap id).take 30).filter fun p => 0 < p

/-- Statistics snapshot returned by `get_price_stats`. -/
structure PriceStats where
  count : ℕ
  median : ℚ
  mean : ℚ
  min : ℚ
  max : ℚ
deriving DecidableEq

/-- The function `scraper.get_price_stats`, as a function of the product's stored price
history (timestamp-descending). -/
def get_price_stats (rowsDb : List (Option ℚ)) : Option PriceStats :=
  let rows := qualifyingRows rowsDb
  if rows.length < 3 then none
  else some ⟨rows.length, pyMedian rows, rows.sum / (rows.length : ℚ),
             pyMin rows, pyMax rows⟩

/-- The Historical Stats Provider as the specification words it (§4.4),
for comparison with `get_price_stats`: it reads "the most recent `window`
samples for the product where price is non-null and > 0", i.e. the
positivity filter is applied before the 30-sample window is cut. -/
def statsFor_spec (rowsDb : List (Option ℚ)) : Option PriceStats :=
  let rows := ((rowsDb.filterMap id).filter fun p => 0 < p).take 30
  if rows.length < 3 then none
  else some ⟨rows.length, pyMedian rows, rows.sum / (rows.length : ℚ),
             pyMin rows, pyMax rows⟩

/-- Default `up_factor` of `is_price_outlier` (Python `3.0`). -/
def up_factor_default : ℚ := 3

/-- Default `down_factor` of `is_price_outlier` (Python `0.33`; exactly the
decimal 33/100 in this rational model). -/
def down_factor_default : ℚ := 33 / 100

/-- The function `scraper.is_price_outlier`.

```python
def is_price_outlier(new_price, stats, up_factor=3.0, down_factor=0.33):
    if stats is None: return False
    median = stats["median"]
    if median <= 0: return False
    if new_price > median * up_factor: return True
    if new_price < median * down_factor: return True
    return False
```
-/
def is_price_outlier (new_price : ℚ) (stats : Option PriceStats)
    (up_factor down_factor : ℚ) : Bool :=
  match stats with
  | none => false
  | some s =>
    if s.median ≤ 0 then false
    else if new_price > s.median * up_factor then true
    else if new_price < s.median * down_factor then true
    else false

/-- The filter `is_price_outlier` with both factors left at their defaults, as the
orchestrator calls it. -/
def is_price_outlier_default (new_price : ℚ) (stats : Option PriceStats) : Bool :=
  is_price_outlier new_price stats up_factor_default down_factor_default

example : is_price_outlier_default 301 (some ⟨3, 100, 100, 90, 110⟩) = true := by decide
example : is_price_outlier_default 299 (some ⟨3, 100, 100, 90, 110⟩) = false := by decide
example : is_price_outlier_default 32 (some ⟨3, 100, 100, 90, 110⟩) = true := by decide
example : is_price_outlier_default 34 (some ⟨3, 100, 100, 90, 110⟩) = false := by decide
example : get_price_stats [some 5, some 6, some 7] = some ⟨3, 6, 6, 5, 7⟩ := by decide
example : get_price_stats [some 5, none, some 7] = none := by decide
example : get_price_stats (List.replicate 30 (some 0) ++ [some 5, some 6, some 7]) = none := by
  decide
example : statsFor_spec (List.replicate 30 (some 0) ++ [some 5, some 6, some 7])
    = some ⟨3, 6, 6, 5, 7⟩ := by decide

/-! ### `scraper._parse_price_from_price_block` and
`scraper.parse_price_from_html`

An HTML document is abstracted by the outcome of every BeautifulSoup
selection `parse_price_from_html` performs: the four primary price
containers (`select_one` each), all generic `.a-price` blocks, the four
legacy id spans, the two `.a-offscreen` selections, and the full page
text.  A price block is abstracted by the (already stripped) text of its
`a-price-whole` and `a-price-fraction` spans, when present.
-/

/-- The text content of one Amazon price block: `span.a-price-whole` and
`span.a-price-fraction`, `none` when the span is absent. -/
structure PriceBlock where
  whole : Option (List Char)
  fraction : Option (List Char)
deriving DecidableEq

/-- Python `str.strip()` (used via `get_text(strip=True)` emptiness
checks). -/
def pyStrip (s : List Char) : List Char :=
  ((s.dropWhile isWs).reverse.dropWhile isWs).reverse

/-- The function `scraper._parse_price_from_price_block`: digits of the whole part,
digits of the fraction part (defaulting to `00`), rebuilt as `R$ W,F` and
handed to `extract_price`; only values above 1 are returned. -/
def parse_price_from_price_block : Option PriceBlock → Option ℚ
  | none => none
  | some b =>
    match b.whole with
    | none => none
    | some wraw =>
      let whole_digits := wraw.filter Char.isDigit
      if whole_digits = [] then none
      else
        let fraction_digits :=
          match b.fraction with
          | some fraw =>
            let f := fraw.filter Char.isDigit
            if f = [] then ['0', '0'] else f
          | none => ['0', '0']
        match extract_price (['R', '$', ' '] ++ whole_digits ++ [','] ++ fraction_digits) with
        | some price => if 1 < price then some price else none
        | none => none

/-- A document, abstracted by the results of the selections
`parse_price_from_html` performs on it. -/
structure Doc where
  /-- Results of `select_one` on each of the four primary container selectors. -/
  containerBlocks : List (Option PriceBlock)
  /-- all `span.a-price, div.a-price` blocks, in document order. -/
  aPriceBlocks : List PriceBlock
  /-- Text of `soup.find("span", id=...)` for each of the four legacy ids
  (`get_text()`, unstripped), `none` when the span is absent. -/
  classicSpans : List (Option (List Char))
  /-- text of `select_one(".a-price .a-offscreen")`. -/
  offscreenInPrice : Option (List Char)
  /-- text of `select_one("span.a-offscreen")`. -/
  offscreenAny : Option (List Char)
  /-- Text of `soup.get_text(" ", strip=True)`. -/
  fullText : List Char
deriving DecidableEq

/-- The `if price is not None and price > 1: candidates.append(price)`
guard applied to one strategy result. -/
def keepValid (p : Option ℚ) : Option ℚ :=
  match p with
  | some v => if 1 < v then some v else none
  | none => none

/-- One legacy-id / offscreen span: `if span and span.get_text(strip=True):
price = extract_price(span.get_text())` plus the validity guard. -/
def spanCandidate (os : Option (List Char)) : Option ℚ :=
  match os with
  | some s => if pyStrip s = [] then none else keepValid (extract_price s)
  | none => none

/-- The candidate pool `parse_price_from_html` accumulates, in the order
the six strategies append to it. -/
def candidatesOf (d : Doc) : List ℚ :=
  d.containerBlocks.filterMap (fun ob => keepValid (parse_price_from_price_block ob))
    ++ d.aPriceBlocks.filterMap (fun b => keepValid (parse_price_from_price_block (some b)))
    ++ d.classicSpans.filterMap spanCandidate
    ++ (spanCandidate d.offscreenInPrice).toList
    ++ (spanCandidate d.offscreenAny).toList
    ++ (keepValid (extract_price d.fullText)).toList

/-- The function `scraper.parse_price_from_html`: pool all candidates, return the
smallest (`best_price = min(candidates)`), `None` on an empty pool. -/
def parse_price_from_html (d : Doc) : Option ℚ :=
  match candidatesOf d with
  | [] => none
  | v :: vs => some (vs.foldl min v)

/-- A document showing `2.116,05` in one price block and `158,00` in
another. -/
def docTwoPrices : Doc where
  containerBlocks := [some ⟨some "2.116".toList, some "05".toList⟩]
  aPriceBlocks := [⟨some "158".toList, some "00".toList⟩]
  classicSpans := []
  offscreenInPrice := none
  offscreenAny := none
  fullText := []

example : parse_price_from_html docTwoPrices = some 158 := by decide
example : parse_price_from_html ⟨[], [], [], none, none, []⟩ = none := by decide

/-! ### `scraper.get_price_with_retries`

```python
def get_price_with_retries(url, attempts=3, delay=4):
    for i in range(1, attempts + 1):
        html = fetch_html(url)
        if not html:
            time.sleep(delay); continue
        price = parse_price_from_html(html)
        if price is not None and price > 1:
            return float(round(price, 2))
        time.sleep(delay)
    return None
```

`fetch_html` performs network I/O; it is modelled as an oracle mapping the
attempt number to the fetched document (`none` = `NetworkFailure`).  The
`time.sleep` calls have no effect on the computed value and are not
modelled.
-/

/-- Python `round(q, 2)`: round to 2 decimal places, ties to even (the
decimal value is exact in this rational model). -/
def pyRound2 (q : ℚ) : ℚ :=
  let x := q * 100
  let n : ℤ :=
    if x - ⌊x⌋ < 1 / 2 then ⌊x⌋
    else if (1 : ℚ) / 2 < x - ⌊x⌋ then ⌊x⌋ + 1
    else if ⌊x⌋ % 2 = 0 then ⌊x⌋ else ⌊x⌋ + 1
  (n : ℚ) / 100

example : pyRound2 (123456 / 100) = 123456 / 100 := by decide
example : pyRound2 (10015 / 1000) = 1002 / 100 := by decide
example : pyRound2 (10025 / 1000) = 1002 / 100 := by decide

/-- The body of the retry loop of `get_price_with_retries`: `i` is the
attempt number about to run, the second argument the number of attempts
still allowed. -/
def retryLoop (fetch : ℕ → Option Doc) : ℕ → ℕ → Option ℚ
  | _, 0 => none
  | i, fuel + 1 =>
    match fetch i with
    | none => retryLoop fetch (i + 1) fuel
    | some html =>
      match parse_price_from_html html with
      | some price =>
        if 1 < price then some (pyRound2 price) else retryLoop fetch (i + 1) fuel
      | none => retryLoop fetch (i + 1) fuel

/-- The function `scraper.get_price_with_retries` (attempts run at indices
`1 .. attempts`). -/
def get_price_with_retries (fetch : ℕ → Option Doc) (attempts : ℕ) : Option ℚ :=
  retryLoop fetch 1 attempts

/-- Default attempt budget (`attempts=3`). -/
def attempts_default : ℕ := 3

/-- The price one attempt delivers: `none` for both a fetch failure and a
failed/invalid extraction (the two cases the loop treats identically). -/
def attemptPrice (fetch : ℕ → Option Doc) (i : ℕ) : Option ℚ :=
  match fetch i with
  | none => none
  | some html =>
    match parse_price_from_html html with
    | some price => if 1 < price then some price else none
    | none => none

example :
    get_price_with_retries (fun i => if i = 2 then some docTwoPrices else none) 3
      = some 158 := by decide
example : get_price_with_retries (fun _ => none) 3 = none := by decide

/-! ### `scraper.run_scraper`

```python
def run_scraper():
    products = <SELECT id, name, url FROM products>
    now_str = datetime.now(timezone.utc).replace(microsecond=0).isoformat()
    sucessos = falhas = outliers = 0
    for pid, name, url in products:
        price = get_price_with_retries(url)
        if price is None:
            falhas += 1
            continue                      # nothing written
        if USE_OUTLIER_FILTER:
            stats = get_price_stats(conn, pid)
            if is_price_outlier(price, stats):
                outliers += 1
                continue                  # nothing written
        <INSERT INTO prices (product_id, price, date) VALUES (pid, price, now_str)>
        sucessos += 1
```

The database is modelled by the initial per-product price history (in
timestamp-descending order, as `get_price_stats`'s query reads it) plus
the rows inserted so far in the round; rows inserted in the round carry
the round timestamp, which is later than every earlier date, so they sort
first.  `fetch_html` is again an oracle, here indexed by URL and attempt
number.
-/

/-- Module-level constant `USE_OUTLIER_FILTER = True`. -/
def USE_OUTLIER_FILTER : Bool := true

/-- One row of the `prices` table as `run_scraper` inserts it. -/
structure PriceRow where
  product_id : ℕ
  price : Option ℚ
  date : List Char
deriving DecidableEq

/-- The running state of one round: rows inserted so far plus the three
counters. -/
structure RoundState where
  writes : List PriceRow
  sucessos : ℕ
  falhas : ℕ
  outliers : ℕ
deriving DecidableEq

/-- What `get_price_stats`'s query sees for product `pid` mid-round:
the rows inserted this round for `pid` (they carry the round timestamp,
the latest date) followed by the initial history. -/
def dbHistory (initDb : ℕ → List (Option ℚ)) (writes : List PriceRow) (pid : ℕ) :
    List (Option ℚ) :=
  ((writes.filter fun r => r.product_id = pid).reverse.map PriceRow.price) ++ initDb pid

/-- The body of `run_scraper`'s product loop for one `(pid, url)` pair. -/
def processProduct (fetch : List Char → ℕ → Option Doc)
    (initDb : ℕ → List (Option ℚ)) (now_str : List Char)
    (st : RoundState) (product : ℕ × List Char) : RoundState :=
  match get_price_with_retries (fetch product.2) attempts_default with
  | none => { st with falhas := st.falhas + 1 }
  | some price =>
    let stats := get_price_stats (dbHistory initDb st.writes product.1)
    if USE_OUTLIER_FILTER && is_price_outlier_default price stats then
      { st with outliers := st.outliers + 1 }
    else
      { st with
          writes := st.writes ++ [⟨product.1, some price, now_str⟩],
          sucessos := st.sucessos + 1 }

/-- The function `scraper.run_scraper`: one round over the registered products.
`products` is the `(id, url)` list the products table delivers, `now_str`
the single UTC timestamp taken before the loop. -/
def run_scraper (products : List (ℕ × List Char))
    (fetch : List Char → ℕ → Option Doc)
    (initDb : ℕ → List (Option ℚ)) (now_str : List Char) : RoundState :=
  products.foldl (processProduct fetch initDb now_str) ⟨[], 0, 0, 0⟩

example :
    run_scraper [(1, "u".toList)] (fun _ _ => none) (fun _ => []) "T".toList
      = ⟨[], 0, 1, 0⟩ := by decide
example :
    run_scraper [(1, "u".toList)] (fun _ _ => some docTwoPrices) (fun _ => [])
      "T".toList
      = ⟨[⟨1, some 158, "T".toList⟩], 1, 0, 0⟩ := by decide
example :
    run_scraper [(1, "u".toList)] (fun _ _ => some docTwoPrices)
      (fun _ => [some 10, some 10, some 10]) "T".toList
      = ⟨[], 0, 0, 1⟩ := by decide

/-! ### Helper lemmas about Python `min`/`max` folds -/

theorem foldl_max_le_init (l : List ℚ) : ∀ a : ℚ, a ≤ l.foldl max a := by
  induction l with
  | nil => intro a; exact le_refl a
  | cons x l ih => intro a; exact le_trans (le_max_left a x) (ih (max a x))

theorem foldl_max_choice (l : List ℚ) : ∀ a : ℚ, l.foldl max a = a ∨ l.foldl max a ∈ l := by
  induction l with
  | nil => intro a; exact Or.inl rfl
  | cons x l ih =>
    intro a
    rcases ih (max a x) with h | h
    · rcases max_choice a x with hm | hm
      · exact Or.inl (by rw [List.foldl_cons, h, hm])
      · exact Or.inr (by rw [List.foldl_cons, h, hm]; exact List.mem_cons_self x l)
    · exact Or.inr (List.mem_cons_of_mem x h)

theorem le_foldl_max_of_mem (l : List ℚ) : ∀ a : ℚ, ∀ x ∈ l, x ≤ l.foldl max a := by
  induction l with
  | nil => intro a x hx; exact absurd hx (List.not_mem_nil x)
  | cons y l ih =>
    intro a x hx
    rcases List.mem_cons.mp hx with h | h
    · subst h; exact le_trans (le_max_right a x) (foldl_max_le_init l (max a x))
    · exact ih (max a y) x h

theorem init_le_foldl_min (l : List ℚ) : ∀ a : ℚ, l.foldl min a ≤ a := by
  induction l with
  | nil => intro a; exact le_refl a
  | cons x l ih => intro a; exact le_trans (ih (min a x)) (min_le_left a x)

theorem foldl_min_choice (l : List ℚ) : ∀ a : ℚ, l.foldl min a = a ∨ l.foldl min a ∈ l := by
  induction l with
  | nil => intro a; exact Or.inl rfl
  | cons x l ih =>
    intro a
    rcases ih (min a x) with h | h
    · rcases min_choice a x with hm | hm
      · exact Or.inl (by rw [List.foldl_cons, h, hm])
      · exact Or.inr (by rw [List.foldl_cons, h, hm]; exact List.mem_cons_self x l)
    · exact Or.inr (List.mem_cons_of_mem x h)

theorem foldl_min_le_of_mem (l : List ℚ) : ∀ a : ℚ, ∀ x ∈ l, l.foldl min a ≤ x := by
  induction l with
  | nil => intro a x hx; exact absurd hx (List.not_mem_nil x)
  | cons y l ih =>
    intro a x hx
    rcases List.mem_cons.mp hx with h | h
    · subst h; exact le_trans (init_le_foldl_min l (min a x)) (min_le_right a x)
    · exact ih (min a y) x h

/-! ### Claims about the Outlier Filter (C5, C6) -/

/-- C5: with a positive median and the default factors, the filter rejects
`p` exactly when `p > median * 3.0` or `p < median * 0.33`, both
inequalities strict. -/
theorem outlier_boundary (s : PriceStats) (p : ℚ) (h : 0 < s.median) :
    is_price_outlier_default p (some s) = true ↔
      s.median * 3 < p ∨ p < s.median * (33 / 100) := by
  simp only [is_price_outlier_default, is_price_outlier, up_factor_default,
    down_factor_default, if_neg (not_le.mpr h)]
  split_ifs with h1 h2 <;> simp_all

/-- Stats snapshot with median 100 for the boundary examples. -/
def statsM100 : PriceStats := ⟨3, 100, 100, 90, 110⟩

/-- Witness for C5 at the spec's boundary examples: median 100, prices
301 / 299 / 32 / 34. -/
theorem outlier_boundary_witness :
    is_price_outlier_default 301 (some statsM100) = true
    ∧ is_price_outlier_default 299 (some statsM100) = false
    ∧ is_price_outlier_default 32 (some statsM100) = true
    ∧ is_price_outlier_default 34 (some statsM100) = false :=
  ⟨(outlier_boundary statsM100 301 (by norm_num [statsM100])).mpr (by norm_num [statsM100]),
   by decide,
   (outlier_boundary statsM100 32 (by norm_num [statsM100])).mpr (by norm_num [statsM100]),
   by decide⟩

/-- C6: with fewer than 3 qualifying historical samples the Stats Provider
returns no snapshot and the Outlier Filter accepts every price; it also
accepts every price whenever the snapshot's median is zero or less. -/
theorem insufficient_history_never_rejects (p : ℚ) :
    (∀ rowsDb : List (Option ℚ), (qualifyingRows rowsDb).length < 3 →
        get_price_stats rowsDb = none
        ∧ is_price_outlier_default p (get_price_stats rowsDb) = false)
    ∧ ∀ s : PriceStats, s.median ≤ 0 → is_price_outlier_default p (some s) = false := by
  constructor
  · intro rowsDb h
    have hs : get_price_stats rowsDb = none := by
      simp only [get_price_stats, if_pos h]
    exact ⟨hs, by rw [hs]; rfl⟩
  · intro s hm
    simp only [is_price_outlier_default, is_price_outlier, if_pos hm]

/-- Witness for C6: an empty history and a huge price. -/
theorem insufficient_history_never_rejects_witness :
    get_price_stats ([] : List (Option ℚ)) = none
    ∧ is_price_outlier_default 1000000000 (get_price_stats []) = false
    ∧ is_price_outlier_default 1000000000 (some ⟨3, 0, 0, 0, 0⟩) = false :=
  ⟨((insufficient_history_never_rejects 1000000000).1 [] (by decide)).1,
   ((insufficient_history_never_rejects 1000000000).1 [] (by decide)).2,
   (insufficient_history_never_rejects 1000000000).2 ⟨3, 0, 0, 0, 0⟩ (by decide)⟩

/-! ### Claims about the Round Orchestrator (C1, C10) -/

/-- Step analysis of the product loop: each product either leaves the
written rows unchanged (failure or outlier, counter incremented) or
appends exactly one row carrying the round timestamp. -/
theorem processProduct_cases (fetch : List Char → ℕ → Option Doc)
    (initDb : ℕ → List (Option ℚ)) (now_str : List Char)
    (st : RoundState) (product : ℕ × List Char) :
    (processProduct fetch initDb now_str st product).writes = st.writes
    ∨ ∃ p : ℚ, (processProduct fetch initDb now_str st product).writes
        = st.writes ++ [⟨product.1, some p, now_str⟩] := by
  unfold processProduct
  cases get_price_with_retries (fetch product.2) attempts_default with
  | none => exact Or.inl rfl
  | some price =>
    dsimp only
    split_ifs with h
    · exact Or.inl rfl
    · exact Or.inr ⟨price, rfl⟩

/-- C10: every row persisted during a round carries the single round
timestamp computed before the product loop. -/
theorem round_rows_share_timestamp (products : List (ℕ × List Char))
    (fetch : List Char → ℕ → Option Doc) (initDb : ℕ → List (Option ℚ))
    (now_str : List Char) :
    ∀ row ∈ (run_scraper products fetch initDb now_str).writes, row.date = now_str := by
  suffices h : ∀ st : RoundState, (∀ r ∈ st.writes, r.date = now_str) →
      ∀ r ∈ (products.foldl (processProduct fetch initDb now_str) st).writes,
        r.date = now_str by
    exact h ⟨[], 0, 0, 0⟩ (by intro r hr; exact absurd hr (List.not_mem_nil r))
  induction products with
  | nil => intro st hst; simpa using hst
  | cons p ps ih =>
    intro st hst
    rw [List.foldl_cons]
    apply ih
    intro r hr
    rcases processProduct_cases fetch initDb now_str st p with hc | ⟨q, hc⟩
    · exact hst r (hc ▸ hr)
    · rw [hc] at hr
      rcases List.mem_append.mp hr with h1 | h1
      · exact hst r h1
      · rw [List.mem_singleton.mp h1]

/-- Witness for C10: a two-product round with one success and one failure;
the single persisted row carries the round timestamp. -/
theorem round_rows_share_timestamp_witness :
    (⟨1, some 158, "2024-01-01T00:00:00+00:00".toList⟩ : PriceRow).date
      = "2024-01-01T00:00:00+00:00".toList :=
  round_rows_share_timestamp [(1, "u".toList), (2, "v".toList)]
    (fun url _ => if url = "u".toList then some docTwoPrices else none)
    (fun _ => []) "2024-01-01T00:00:00+00:00".toList
    ⟨1, some 158, "2024-01-01T00:00:00+00:00".toList⟩ (by decide)

/-- C1 counterexample: a round over one product whose fetch always fails
performs no persistence write at all (the claim demands exactly one write
with a null price), and a round over one product whose reading is flagged
as an outlier also performs no write (the claim demands one write carrying
the candidate price). -/
theorem failed_and_outlier_outcomes_write_nothing :
    (run_scraper [(1, "u".toList)] (fun _ _ => none) (fun _ => []) "T".toList).falhas = 1
    ∧ (run_scraper [(1, "u".toList)] (fun _ _ => none) (fun _ => []) "T".toList).writes = []
    ∧ (run_scraper [(1, "u".toList)] (fun _ _ => some docTwoPrices)
        (fun _ => [some 10, some 10, some 10]) "T".toList).outliers = 1
    ∧ (run_scraper [(1, "u".toList)] (fun _ _ => some docTwoPrices)
        (fun _ => [some 10, some 10, some 10]) "T".toList).writes = [] := by
  decide

/-- C1 (amended): per product, on terminal retry failure the orchestrator
only increments the failure counter and persists nothing; on an outlier
flag it only increments the outlier counter and persists nothing; only an
accepted reading is persisted, as exactly one row carrying the price and
the round timestamp. -/
theorem round_persistence_behavior (fetch : List Char → ℕ → Option Doc)
    (initDb : ℕ → List (Option ℚ)) (now_str : List Char)
    (st : RoundState) (pid : ℕ) (url : List Char) :
    (get_price_with_retries (fetch url) attempts_default = none →
        processProduct fetch initDb now_str st (pid, url)
          = { st with falhas := st.falhas + 1 })
    ∧ (∀ p, get_price_with_retries (fetch url) attempts_default = some p →
        is_price_outlier_default p (get_price_stats (dbHistory initDb st.writes pid))
            = true →
        processProduct fetch initDb now_str st (pid, url)
          = { st with outliers := st.outliers + 1 })
    ∧ (∀ p, get_price_with_retries (fetch url) attempts_default = some p →
        is_price_outlier_default p (get_price_stats (dbHistory initDb st.writes pid))
            = false →
        processProduct fetch initDb now_str st (pid, url)
          = { st with writes := st.writes ++ [⟨pid, some p, now_str⟩],
                      sucessos := st.sucessos + 1 }) := by
  refine ⟨fun h => ?_, fun p h hout => ?_, fun p h hout => ?_⟩
  · unfold processProduct
    rw [h]
  · unfold processProduct
    rw [h]
    simp [USE_OUTLIER_FILTER, hout]
  · unfold processProduct
    rw [h]
    simp [USE_OUTLIER_FILTER, hout]

/-- Witness for C1's amended theorem: the three outcomes at concrete
inputs. -/
theorem round_persistence_behavior_witness :
    processProduct (fun _ _ => none) (fun _ => []) "T".toList ⟨[], 0, 0, 0⟩ (1, "u".toList)
      = ⟨[], 0, 1, 0⟩
    ∧ processProduct (fun _ _ => some docTwoPrices) (fun _ => [some 10, some 10, some 10])
        "T".toList ⟨[], 0, 0, 0⟩ (1, "u".toList)
      = ⟨[], 0, 0, 1⟩
    ∧ processProduct (fun _ _ => some docTwoPrices) (fun _ => []) "T".toList
        ⟨[], 0, 0, 0⟩ (1, "u".toList)
      = ⟨[⟨1, some 158, "T".toList⟩], 1, 0, 0⟩ :=
  ⟨(round_persistence_behavior (fun _ _ => none) (fun _ => []) "T".toList
      ⟨[], 0, 0, 0⟩ 1 "u".toList).1 (by decide),
   (round_persistence_behavior (fun _ _ => some docTwoPrices)
      (fun _ => [some 10, some 10, some 10]) "T".toList
      ⟨[], 0, 0, 0⟩ 1 "u".toList).2.1 158 (by decide) (by decide),
   (round_persistence_behavior (fun _ _ => some docTwoPrices) (fun _ => [])
      "T".toList ⟨[], 0, 0, 0⟩ 1 "u".toList).2.2 158 (by decide) (by decide)⟩

/-! ### Claim about the Retry Controller (C4) -/

theorem retryLoop_succ (fetch : ℕ → Option Doc) (i fuel : ℕ) :
    retryLoop fetch i (fuel + 1) =
      match fetch i with
      | none => retryLoop fetch (i + 1) fuel
      | some html =>
        match parse_price_from_html html with
        | some price =>
          if 1 < price then some (pyRound2 price) else retryLoop fetch (i + 1) fuel
        | none => retryLoop fetch (i + 1) fuel := rfl

theorem retryLoop_step_none (fetch : ℕ → Option Doc) (i fuel : ℕ)
    (h : attemptPrice fetch i = none) :
    retryLoop fetch i (fuel + 1) = retryLoop fetch (i + 1) fuel := by
  unfold attemptPrice at h
  rw [retryLoop_succ]
  cases hf : fetch i with
  | none => rfl
  | some html =>
    rw [hf] at h
    dsimp only at h ⊢
    cases hp : parse_price_from_html html with
    | none => rfl
    | some price =>
      rw [hp] at h
      dsimp only at h ⊢
      split_ifs with h1
      · rw [if_pos h1] at h; exact absurd h (by simp)
      · rfl

theorem retryLoop_step_some (fetch : ℕ → Option Doc) (i fuel : ℕ) (p : ℚ)
    (h : attemptPrice fetch i = some p) :
    retryLoop fetch i (fuel + 1) = some (pyRound2 p) := by
  unfold attemptPrice at h
  rw [retryLoop_succ]
  cases hf : fetch i with
  | none => rw [hf] at h; exact absurd h (by simp)
  | some html =>
    rw [hf] at h
    dsimp only at h ⊢
    cases hp : parse_price_from_html html with
    | none => rw [hp] at h; exact absurd h (by simp)
    | some price =>
      rw [hp] at h
      dsimp only at h ⊢
      split_ifs with h1
      · rw [if_pos h1] at h
        rw [Option.some_inj.mp h]
      · rw [if_neg h1] at h; exact absurd h (by simp)

theorem retryLoop_congr (fetch g : ℕ → Option Doc) :
    ∀ fuel i : ℕ, (∀ j, i ≤ j → j < i + fuel → fetch j = g j) →
      retryLoop fetch i fuel = retryLoop g i fuel := by
  intro fuel
  induction fuel with
  | zero => intro i _; rfl
  | succ fuel ih =>
    intro i hagree
    have hi : fetch i = g i := hagree i (le_refl i) (by omega)
    rw [retryLoop_succ fetch, retryLoop_succ g, hi]
    cases g i with
    | none => exact ih (i + 1) fun j h1 h2 => hagree j (by omega) (by omega)
    | some html =>
      dsimp only
      cases parse_price_from_html html with
      | none => exact ih (i + 1) fun j h1 h2 => hagree j (by omega) (by omega)
      | some price =>
        dsimp only
        split_ifs with h1
        · rfl
        · exact ih (i + 1) fun j h1 h2 => hagree j (by omega) (by omega)

theorem retryLoop_all_fail (fetch : ℕ → Option Doc) :
    ∀ fuel i : ℕ, (∀ j, i ≤ j → j < i + fuel → attemptPrice fetch j = none) →
      retryLoop fetch i fuel = none := by
  intro fuel
  induction fuel with
  | zero => intro i _; rfl
  | succ fuel ih =>
    intro i hfail
    rw [retryLoop_step_none fetch i fuel (hfail i (le_refl i) (by omega))]
    exact ih (i + 1) fun j h1 h2 => hfail j (by omega) (by omega)

theorem retryLoop_first_success (fetch : ℕ → Option Doc) :
    ∀ fuel i j : ℕ, ∀ p : ℚ, i ≤ j → j < i + fuel →
      attemptPrice fetch j = some p →
      (∀ k, i ≤ k → k < j → attemptPrice fetch k = none) →
      retryLoop fetch i fuel = some (pyRound2 p) := by
  intro fuel
  induction fuel with
  | zero => intro i j p h1 h2 _ _; omega
  | succ fuel ih =>
    intro i j p h1 h2 hj hbefore
    rcases Nat.eq_or_lt_of_le h1 with he | hlt
    · subst he
      exact retryLoop_step_some fetch i fuel p hj
    · rw [retryLoop_step_none fetch i fuel (hbefore i (le_refl i) hlt)]
      exact ih (i + 1) j p (by omega) (by omega) hj
        fun k hk1 hk2 => hbefore k (by omega) hk2

/-- C4: the Retry Controller consults at most `attempts` fetch/extract
cycles (its result is unchanged under any change of the oracle beyond
attempts `1..attempts`); the first attempt that extracts a valid price
determines the result immediately (rounded to two decimals, regardless of
all later attempts); and when every attempt within the budget fails it
returns `none` rather than raising. -/
theorem retry_controller_contract (fetch : ℕ → Option Doc) (attempts : ℕ) :
    (∀ g : ℕ → Option Doc, (∀ i, 1 ≤ i → i ≤ attempts → fetch i = g i) →
        get_price_with_retries fetch attempts = get_price_with_retries g attempts)
    ∧ (∀ j p, 1 ≤ j → j ≤ attempts → attemptPrice fetch j = some p →
        (∀ k, 1 ≤ k → k < j → attemptPrice fetch k = none) →
        get_price_with_retries fetch attempts = some (pyRound2 p))
    ∧ ((∀ j, 1 ≤ j → j ≤ attempts → attemptPrice fetch j = none) →
        get_price_with_retries fetch attempts = none) := by
  refine ⟨fun g hagree => ?_, fun j p h1 h2 hj hbefore => ?_, fun hfail => ?_⟩
  · exact retryLoop_congr fetch g attempts 1 fun j ha hb => hagree j ha (by omega)
  · exact retryLoop_first_success fetch attempts 1 j p h1 (by omega) hj
      fun k hk1 hk2 => hbefore k hk1 hk2
  · exact retryLoop_all_fail fetch attempts 1 fun j ha hb => hfail j ha (by omega)

/-- Witness for C4: a success on attempt 2 out of 3 (attempt 1 is a
network failure), and an all-fail run returning `none`. -/
theorem retry_controller_contract_witness :
    get_price_with_retries (fun i => if i = 2 then some docTwoPrices else none) 3
      = some (pyRound2 158)
    ∧ get_price_with_retries (fun _ => none) 3 = none :=
  ⟨(retry_controller_contract (fun i => if i = 2 then some docTwoPrices else none) 3).2.1
      2 158 (by decide) (by decide) (by decide) (by decide),
   (retry_controller_contract (fun _ => none) 3).2.2 (by decide)⟩

/-! ### Helper lemmas about the extractor -/

theorem not_ws_of_priceChar {c : Char} (h : isPriceChar c = true) : isWs c = false := by
  by_contra hw
  rw [Bool.not_eq_false] at hw
  unfold isWs at hw
  have : c = ' ' ∨ c = '\t' ∨ c = '\n' ∨ c = '\r' ∨ c = '\x0b' ∨ c = '\x0c' := by
    simpa [Bool.or_eq_true, decide_eq_true_eq, or_assoc] using hw
  rcases this with rfl | rfl | rfl | rfl | rfl | rfl <;> exact absurd h (by decide)

theorem isDigit_ne_dot {c : Char} (h : c.isDigit = true) : ¬(c = '.') := by
  intro e; subst e; exact absurd h (by decide)

theorem isDigit_ne_comma {c : Char} (h : c.isDigit = true) : ¬(c = ',') := by
  intro e; subst e; exact absurd h (by decide)

theorem rsValue_pos (m : List Char) (v : ℚ) (h : rsValue m = some v) : 1 < v := by
  unfold rsValue at h
  cases hp : parseFloat (clean m) with
  | none => rw [hp] at h; exact absurd h (by simp)
  | some w =>
    rw [hp] at h
    dsimp only at h
    by_cases h1 : 1 < w
    · rw [if_pos h1] at h; rw [← Option.some_inj.mp h]; exact h1
    · rw [if_neg h1] at h; exact absurd h (by simp)

theorem mem_rsCandidates_pos (t : List Char) (v : ℚ) (h : v ∈ rsCandidates t) : 1 < v := by
  unfold rsCandidates at h
  rcases List.mem_filterMap.mp h with ⟨m, _, hm⟩
  exact rsValue_pos m v hm

theorem fallbackFirst_pos : ∀ ms : List (List Char), ∀ v : ℚ,
    fallbackFirst ms = some v → 1 < v := by
  intro ms
  induction ms with
  | nil => intro v h; exact absurd h (by simp [fallbackFirst])
  | cons m rest ih =>
    intro v h
    unfold fallbackFirst at h
    cases hp : parseFloat (clean m) with
    | none => rw [hp] at h; exact ih v h
    | some w =>
      rw [hp] at h
      dsimp only at h
      by_cases h1 : 1 < w
      · rw [if_pos h1] at h; rw [← Option.some_inj.mp h]; exact h1
      · rw [if_neg h1] at h; exact ih v h

theorem extract_price_pos (t : List Char) (v : ℚ) (h : extract_price t = some v) :
    1 < v := by
  by_cases ht : t = []
  · unfold extract_price at h; rw [if_pos ht] at h; exact absurd h (by simp)
  · unfold extract_price at h
    rw [if_neg ht] at h
    dsimp only at h
    cases hc : rsCandidates (normSpaces t) with
    | nil => rw [hc] at h; exact fallbackFirst_pos _ v h
    | cons x xs =>
      rw [hc] at h
      dsimp only at h
      have hv : v = xs.foldl max x := (Option.some_inj.mp h).symm
      rcases foldl_max_choice xs x with he | he
      · rw [hv, he]
        exact mem_rsCandidates_pos _ x (by rw [hc]; exact List.mem_cons_self x xs)
      · rw [hv]
        exact mem_rsCandidates_pos _ _ (by rw [hc]; exact List.mem_cons_of_mem x he)

theorem keepValid_pos (p : Option ℚ) (v : ℚ) (h : keepValid p = some v) : 1 < v := by
  cases p with
  | none => exact absurd h (by simp [keepValid])
  | some w =>
    unfold keepValid at h
    dsimp only at h
    by_cases h1 : 1 < w
    · rw [if_pos h1] at h; rw [← Option.some_inj.mp h]; exact h1
    · rw [if_neg h1] at h; exact absurd h (by simp)

theorem parse_price_from_price_block_pos (b : Option PriceBlock) (v : ℚ)
    (h : parse_price_from_price_block b = some v) : 1 < v := by
  cases b with
  | none => exact absurd h (by simp [parse_price_from_price_block])
  | some blk =>
    unfold parse_price_from_price_block at h
    dsimp only at h
    cases hw : blk.whole with
    | none => rw [hw] at h; exact absurd h (by simp)
    | some wraw =>
      rw [hw] at h
      dsimp only at h
      by_cases h1 : wraw.filter Char.isDigit = []
      · rw [if_pos h1] at h; exact absurd h (by simp)
      · rw [if_neg h1] at h
        exact keepValid_pos _ v h

theorem spanCandidate_pos (os : Option (List Char)) (v : ℚ)
    (h : spanCandidate os = some v) : 1 < v := by
  cases os with
  | none => exact absurd h (by simp [spanCandidate])
  | some s =>
    unfold spanCandidate at h
    dsimp only at h
    by_cases h1 : pyStrip s = []
    · rw [if_pos h1] at h; exact absurd h (by simp)
    · rw [if_neg h1] at h
      exact keepValid_pos _ v h

theorem mem_candidatesOf_pos (d : Doc) (v : ℚ) (h : v ∈ candidatesOf d) : 1 < v := by
  unfold candidatesOf at h
  simp only [List.mem_append] at h
  rcases h with ((((h | h) | h) | h) | h) | h
  · rcases List.mem_filterMap.mp h with ⟨b, _, hb⟩; exact keepValid_pos _ v hb
  · rcases List.mem_filterMap.mp h with ⟨b, _, hb⟩; exact keepValid_pos _ v hb
  · rcases List.mem_filterMap.mp h with ⟨s, _, hs⟩; exact spanCandidate_pos _ v hs
  · exact spanCandidate_pos _ v (Option.mem_toList.mp h)
  · exact spanCandidate_pos _ v (Option.mem_toList.mp h)
  · exact keepValid_pos _ v (Option.mem_toList.mp h)

theorem parse_price_from_html_pos (d : Doc) (v : ℚ)
    (h : parse_price_from_html d = some v) : 1 < v := by
  unfold parse_price_from_html at h
  cases hc : candidatesOf d with
  | nil => rw [hc] at h; exact absurd h (by simp)
  | cons x xs =>
    rw [hc] at h
    dsimp only at h
    have hv : v = xs.foldl min x := (Option.some_inj.mp h).symm
    rcases foldl_min_choice xs x with he | he
    · rw [hv, he]
      exact mem_candidatesOf_pos d x (by rw [hc]; exact List.mem_cons_self x xs)
    · rw [hv]
      exact mem_candidatesOf_pos d _ (by rw [hc]; exact List.mem_cons_of_mem x he)

/-! ### Claim C9: every returned price exceeds 1 -/

/-- C9: a parsed value ≤ 1.0 never enters a candidate pool and is never
returned: every price `extract_price` returns, every block-strategy
result, every pooled candidate and every price the document extractor
returns is strictly greater than 1. -/
theorem no_small_value_returned :
    (∀ (t : List Char) (v : ℚ), extract_price t = some v → 1 < v)
    ∧ (∀ (b : Option PriceBlock) (v : ℚ), parse_price_from_price_block b = some v → 1 < v)
    ∧ (∀ (d : Doc) (v : ℚ), v ∈ candidatesOf d → 1 < v)
    ∧ (∀ (d : Doc) (v : ℚ), parse_price_from_html d = some v → 1 < v) :=
  ⟨extract_price_pos, parse_price_from_price_block_pos,
   mem_candidatesOf_pos, parse_price_from_html_pos⟩

/-- Witness for C9 at concrete inputs. -/
theorem no_small_value_returned_witness :
    extract_price "R$ 2,50".toList = some (5 / 2) ∧ (1 : ℚ) < 5 / 2
    ∧ parse_price_from_html docTwoPrices = some 158 ∧ (1 : ℚ) < 158 :=
  ⟨by decide, no_small_value_returned.1 "R$ 2,50".toList (5 / 2) (by decide),
   by decide, no_small_value_returned.2.2.2 docTwoPrices 158 (by decide)⟩

/-! ### Claim C3: within one text, `extract_price` takes the maximum -/

/-- C3: whenever the `R$` pattern yields at least two candidates with
distinct parsed values above 1 in a single text, `extract_price` returns
a value that is in the candidate pool and an upper bound of it (the
maximum) — and is not a lower bound, hence not the minimum. -/
theorem rs_candidates_resolve_to_max (t : List Char) (v w : ℚ)
    (hv : v ∈ rsCandidates (normSpaces t)) (hw : w ∈ rsCandidates (normSpaces t))
    (hvw : v ≠ w) :
    ∃ m, extract_price t = some m
      ∧ m ∈ rsCandidates (normSpaces t)
      ∧ (∀ x ∈ rsCandidates (normSpaces t), x ≤ m)
      ∧ ¬(∀ x ∈ rsCandidates (normSpaces t), m ≤ x) := by
  have ht : t ≠ [] := by
    intro he
    subst he
    exact absurd hv (by simp [rsCandidates, findRS, normSpaces, findRSF])
  cases hc : rsCandidates (normSpaces t) with
  | nil => rw [hc] at hv; exact absurd hv (List.not_mem_nil v)
  | cons x xs =>
    have hv2 : v ∈ x :: xs := hc ▸ hv
    have hw2 : w ∈ x :: xs := hc ▸ hw
    have hub : ∀ y ∈ x :: xs, y ≤ xs.foldl max x := by
      intro y hy
      rcases List.mem_cons.mp hy with rfl | hy2
      · exact foldl_max_le_init xs y
      · exact le_foldl_max_of_mem xs x y hy2
    refine ⟨xs.foldl max x, ?_, ?_, hub, ?_⟩
    · unfold extract_price
      rw [if_neg ht]
      dsimp only
      rw [hc]
    · rcases foldl_max_choice xs x with he | he
      · rw [he]; exact List.mem_cons_self x xs
      · exact List.mem_cons_of_mem x he
    · intro hlb
      have h1 : v = xs.foldl max x := le_antisymm (hub v hv2) (hlb v hv2)
      have h2 : w = xs.foldl max x := le_antisymm (hub w hw2) (hlb w hw2)
      exact hvw (h1.trans h2.symm)

/-- The full-page text of the C3 scenario: two `R$` prices in one text. -/
def c3text : List Char := "R$ 2116,05 ou R$ 158,00".toList

/-- Witness for C3: a single text carrying `R$ 2116,05` and `R$ 158,00`
resolves to the larger value 2116.05, not the smaller. -/
theorem rs_candidates_resolve_to_max_witness :
    extract_price c3text = some (211605 / 100)
    ∧ ∃ m, extract_price c3text = some m
        ∧ m ∈ rsCandidates (normSpaces c3text)
        ∧ (∀ x ∈ rsCandidates (normSpaces c3text), x ≤ m)
        ∧ ¬(∀ x ∈ rsCandidates (normSpaces c3text), m ≤ x) :=
  ⟨by decide,
   rs_candidates_resolve_to_max c3text (211605 / 100) 158 (by decide) (by decide)
     (by decide)⟩

/-! ### Claim C2: across strategies, the document extractor takes the
minimum -/

/-- C2: the document extractor pools the candidates of all strategies and
resolves to the minimum of the pool (a member of the pool that bounds it
from below); an empty pool makes it return no price rather than crash. -/
theorem document_resolves_to_pool_minimum (d : Doc) :
    (candidatesOf d = [] → parse_price_from_html d = none)
    ∧ ∀ v vs, candidatesOf d = v :: vs →
        ∃ m, parse_price_from_html d = some m
          ∧ m ∈ candidatesOf d ∧ ∀ x ∈ candidatesOf d, m ≤ x := by
  constructor
  · intro hc
    unfold parse_price_from_html
    rw [hc]
  · intro v vs hc
    refine ⟨vs.foldl min v, ?_, ?_, ?_⟩
    · unfold parse_price_from_html
      rw [hc]
    · rcases foldl_min_choice vs v with he | he
      · rw [he, hc]; exact List.mem_cons_self v vs
      · rw [hc]; exact List.mem_cons_of_mem v he
    · intro y hy
      rw [hc] at hy
      rcases List.mem_cons.mp hy with rfl | hy2
      · exact init_le_foldl_min vs y
      · exact foldl_min_le_of_mem vs v y hy2

/-- Witness for C2: a document carrying candidates 2116.05 and 158.00
resolves to 158.00, and a document with an empty pool yields `none`. -/
theorem document_resolves_to_pool_minimum_witness :
    parse_price_from_html docTwoPrices = some 158
    ∧ candidatesOf docTwoPrices = [211605 / 100, 158]
    ∧ parse_price_from_html ⟨[], [], [], none, none, []⟩ = none
    ∧ ∃ m, parse_price_from_html docTwoPrices = some m
        ∧ m ∈ candidatesOf docTwoPrices ∧ ∀ x ∈ candidatesOf docTwoPrices, m ≤ x :=
  ⟨by decide, by decide,
   (document_resolves_to_pool_minimum ⟨[], [], [], none, none, []⟩).1 (by decide),
   (document_resolves_to_pool_minimum docTwoPrices).2 (211605 / 100) [158] (by decide)⟩

/-! ### Claim C8: locale-aware parse of `R$ 1.234,56`-style strings

The format is described by a nonempty list of nonempty digit groups
(joined by the thousands separator `.`), the decimal separator `,` and a
nonempty run of fractional digits.
-/

/-- The thousands-separated integer part: digit groups joined by `.`. -/
def brGroups : List (List Char) → List Char
  | [] => []
  | [g] => g
  | g :: rest => g ++ '.' :: brGroups rest

/-- A full price string `R$ <groups>,<cents>`. -/
def brPriceString (groups : List (List Char)) (cents : List Char) : List Char :=
  'R' :: '$' :: ' ' :: (brGroups groups ++ ',' :: cents)

/-- The decimal value `<int>.<frac>` denotes. -/
def decimalValue (ip fp : List Char) : ℚ :=
  (digitsToNat ip : ℚ) + (digitsToNat fp : ℚ) / 10 ^ fp.length

theorem mem_brGroups : ∀ groups : List (List Char), ∀ c : Char,
    c ∈ brGroups groups → (∃ g ∈ groups, c ∈ g) ∨ c = '.'
  | [], c, h => absurd h (List.not_mem_nil c)
  | [g], c, h => Or.inl ⟨g, List.mem_cons_self g [], h⟩
  | g :: g' :: rest, c, h => by
    rcases List.mem_append.mp h with h1 | h1
    · exact Or.inl ⟨g, List.mem_cons_self _ _, h1⟩
    · rcases List.mem_cons.mp h1 with rfl | h2
      · exact Or.inr rfl
      · rcases mem_brGroups (g' :: rest) c h2 with ⟨g0, hg0, hc0⟩ | hdot
        · exact Or.inl ⟨g0, List.mem_cons_of_mem g hg0, hc0⟩
        · exact Or.inr hdot

theorem normSpaces_no_ws : ∀ l : List Char, (∀ c ∈ l, isWs c = false) → normSpaces l = l
  | [], _ => rfl
  | [c], h => by
    have := h c (List.mem_singleton.mpr rfl)
    simp [normSpaces, this]
  | c :: d :: rest, h => by
    have hc : isWs c = false := h c (List.mem_cons_self _ _)
    have hd : isWs d = false := h d (List.mem_cons_of_mem c (List.mem_cons_self _ _))
    have hrest := normSpaces_no_ws (d :: rest) fun x hx => h x (List.mem_cons_of_mem c hx)
    simp [normSpaces, hc, hd, hrest]

theorem normSpaces_rs_head (body : List Char) (hne : body ≠ [])
    (h : ∀ c ∈ body, isWs c = false) :
    normSpaces ('R' :: '$' :: ' ' :: body) = 'R' :: '$' :: ' ' :: body := by
  cases body with
  | nil => exact absurd rfl hne
  | cons b0 brest =>
    have hb0 : isWs b0 = false := h b0 (List.mem_cons_self _ _)
    have hrest := normSpaces_no_ws (b0 :: brest) h
    have w1 : isWs 'R' = false := by decide
    have w2 : isWs '$' = false := by decide
    have w3 : isWs ' ' = true := by decide
    simp [normSpaces, w1, w2, w3, hb0, hrest]

theorem findRSF_nil : ∀ fuel : ℕ, findRSF fuel [] = []
  | 0 => rfl
  | _ + 1 => rfl

theorem takeWhile_append_all {p : Char → Bool} :
    ∀ l1 l2 : List Char, (∀ c ∈ l1, p c = true) →
      (l1 ++ l2).takeWhile p = l1 ++ l2.takeWhile p
  | [], l2, _ => rfl
  | c :: l1, l2, h => by
    have hc : p c = true := h c (List.mem_cons_self _ _)
    have := takeWhile_append_all l1 l2 fun x hx => h x (List.mem_cons_of_mem c hx)
    simp [List.takeWhile_cons, hc, this]

theorem dropWhile_append_all {p : Char → Bool} :
    ∀ l1 l2 : List Char, (∀ c ∈ l1, p c = true) →
      (l1 ++ l2).dropWhile p = l2.dropWhile p
  | [], l2, _ => rfl
  | c :: l1, l2, h => by
    have hc : p c = true := h c (List.mem_cons_self _ _)
    have := dropWhile_append_all l1 l2 fun x hx => h x (List.mem_cons_of_mem c hx)
    simp [List.dropWhile_cons, hc, this]

/-- Scanning `R$ <body>` where the whole body consists of `[\d\.\,]`
characters yields exactly one match: the body. -/
theorem findRS_price (body : List Char) (hne : body ≠ [])
    (hpc : ∀ c ∈ body, isPriceChar c = true) :
    findRS ('R' :: '$' :: ' ' :: body) = [body] := by
  cases body with
  | nil => exact absurd rfl hne
  | cons b0 brest =>
    have hb0pc : isPriceChar b0 = true := hpc b0 (List.mem_cons_self _ _)
    have hb0ws : isWs b0 = false := not_ws_of_priceChar hb0pc
    show findRSF ((b0 :: brest).length + 2 + 1) ('R' :: '$' :: ' ' :: b0 :: brest)
      = [b0 :: brest]
    rw [findRSF]
    rw [if_pos ⟨rfl, rfl⟩]
    have hws : (' ' :: b0 :: brest).dropWhile isWs = b0 :: brest := by
      rw [List.dropWhile_cons]
      simp only [show isWs ' ' = true from by decide, if_true]
      rw [List.dropWhile_cons]
      simp [hb0ws]
    have htw : (b0 :: brest).takeWhile isPriceChar = b0 :: brest :=
      List.takeWhile_eq_self_iff.mpr hpc
    have hdw : (b0 :: brest).dropWhile isPriceChar = [] :=
      List.dropWhile_eq_nil_iff.mpr hpc
    simp only [List.tail_cons, hws, htw, hdw, findRSF_nil]
    rw [if_neg (by simp)]

theorem clean_cons (c : Char) (l : List Char) :
    clean (c :: l) = if c = '.' then clean l
                     else (if c = ',' then '.' else c) :: clean l := by
  unfold clean
  rw [List.filter_cons]
  by_cases hc : c = '.'
  · simp [hc]
  · simp [hc]

theorem clean_append (a b : List Char) : clean (a ++ b) = clean a ++ clean b := by
  unfold clean
  rw [List.filter_append, List.map_append]

theorem clean_digits : ∀ l : List Char, (∀ c ∈ l, c.isDigit = true) → clean l = l
  | [], _ => rfl
  | c :: l, h => by
    have hc := h c (List.mem_cons_self _ _)
    rw [clean_cons, if_neg (isDigit_ne_dot hc), if_neg (isDigit_ne_comma hc),
        clean_digits l fun x hx => h x (List.mem_cons_of_mem c hx)]

theorem clean_brGroups : ∀ groups : List (List Char),
    (∀ g ∈ groups, ∀ c ∈ g, c.isDigit = true) →
    clean (brGroups groups) = groups.join
  | [], _ => rfl
  | [g], h => by
    rw [show brGroups [g] = g from rfl, clean_digits g (h g (List.mem_cons_self _ _))]
    simp
  | g :: g' :: rest, h => by
    rw [show brGroups (g :: g' :: rest) = g ++ '.' :: brGroups (g' :: rest) from rfl]
    rw [clean_append, clean_cons, if_pos rfl,
        clean_digits g (h g (List.mem_cons_self _ _)),
        clean_brGroups (g' :: rest) fun g0 hg0 => h g0 (List.mem_cons_of_mem g hg0)]
    simp

theorem parseFloat_int_frac (ip fp : List Char)
    (hip : ∀ c ∈ ip, c.isDigit = true) (hfp : ∀ c ∈ fp, c.isDigit = true)
    (hne : fp ≠ []) :
    parseFloat (ip ++ '.' :: fp) = some (decimalValue ip fp) := by
  have hipP : ∀ c ∈ ip, (!(c = '.' : Bool)) = true := fun c hc => by
    simp [isDigit_ne_dot (hip c hc)]
  have hcond : (∀ c ∈ ip ++ '.' :: fp, c.isDigit ∨ c = '.')
      ∧ (ip ++ '.' :: fp).count '.' ≤ 1
      ∧ (∃ c ∈ ip ++ '.' :: fp, c.isDigit = true) := by
    refine ⟨?_, ?_, ?_⟩
    · intro c hc
      rcases List.mem_append.mp hc with h1 | h1
      · exact Or.inl (hip c h1)
      · rcases List.mem_cons.mp h1 with rfl | h2
        · exact Or.inr rfl
        · exact Or.inl (hfp c h2)
    · have h1 : ip.count '.' = 0 :=
        List.count_eq_zero.mpr fun hmem => isDigit_ne_dot (hip '.' hmem) rfl
      have h2 : fp.count '.' = 0 :=
        List.count_eq_zero.mpr fun hmem => isDigit_ne_dot (hfp '.' hmem) rfl
      rw [List.count_append, h1, List.count_cons_self, h2]
    · cases fp with
      | nil => exact absurd rfl hne
      | cons f0 frest =>
        exact ⟨f0, List.mem_append_right _
          (List.mem_cons_of_mem '.' (List.mem_cons_self _ _)), hfp f0 (List.mem_cons_self _ _)⟩
  unfold parseFloat
  rw [if_pos hcond]
  have htw : ((ip ++ '.' :: fp).takeWhile fun c => !(c = '.')) = ip := by
    rw [takeWhile_append_all ip ('.' :: fp) hipP, List.takeWhile_cons]
    simp
  have hdw : ((ip ++ '.' :: fp).dropWhile fun c => !(c = '.')).drop 1 = fp := by
    rw [dropWhile_append_all ip ('.' :: fp) hipP, List.dropWhile_cons]
    simp
  dsimp only
  rw [htw, hdw]
  rfl

theorem rsValue_br (groups : List (List Char)) (cents : List Char)
    (hg : ∀ g ∈ groups, g ≠ [] ∧ ∀ c ∈ g, c.isDigit = true)
    (hcne : cents ≠ []) (hcd : ∀ c ∈ cents, c.isDigit = true)
    (hv : 1 < decimalValue groups.join cents) :
    rsValue (brGroups groups ++ ',' :: cents) = some (decimalValue groups.join cents) := by
  unfold rsValue
  have hclean : clean (brGroups groups ++ ',' :: cents)
      = groups.join ++ '.' :: cents := by
    rw [clean_append, clean_brGroups groups fun g hg2 => (hg g hg2).2,
        clean_cons, if_neg (by decide), if_pos rfl, clean_digits cents hcd]
  rw [hclean, parseFloat_int_frac groups.join cents
       (fun c hc => by
          rcases List.mem_join.mp hc with ⟨g, hg2, hc2⟩
          exact (hg g hg2).2 c hc2)
       hcd hcne]
  dsimp only
  rw [if_pos hv]

/-- C8: every price string `R$ <ds>,<cs>` — currency marker, nonempty
`.`-separated digit groups as integer part, `,`, nonempty fraction
digits — parses to exactly the decimal value it denotes (thousands
separators dropped, `,` read as the decimal point), provided that value
exceeds the validity floor 1. -/
theorem br_price_format_parses (groups : List (List Char)) (cents : List Char)
    (hg : ∀ g ∈ groups, g ≠ [] ∧ ∀ c ∈ g, c.isDigit = true)
    (hcne : cents ≠ []) (hcd : ∀ c ∈ cents, c.isDigit = true)
    (hv : 1 < decimalValue groups.join cents) :
    extract_price (brPriceString groups cents)
      = some (decimalValue groups.join cents) := by
  have hbodypc : ∀ c ∈ brGroups groups ++ ',' :: cents, isPriceChar c = true := by
    intro c hc
    rcases List.mem_append.mp hc with h1 | h1
    · rcases mem_brGroups groups c h1 with ⟨g, hg2, hc2⟩ | rfl
      · simp [isPriceChar, (hg g hg2).2 c hc2]
      · decide
    · rcases List.mem_cons.mp h1 with rfl | h2
      · decide
      · simp [isPriceChar, hcd c h2]
  have hbodyne : brGroups groups ++ ',' :: cents ≠ [] := by simp
  unfold brPriceString extract_price
  rw [if_neg (by simp)]
  dsimp only
  rw [normSpaces_rs_head _ hbodyne fun c hc => not_ws_of_priceChar (hbodypc c hc)]
  have hrs : rsCandidates ('R' :: '$' :: ' ' :: (brGroups groups ++ ',' :: cents))
      = [decimalValue groups.join cents] := by
    unfold rsCandidates
    rw [findRS_price _ hbodyne hbodypc]
    simp [List.filterMap_cons, rsValue_br groups cents hg hcne hcd hv]
  rw [hrs]
  rfl

/-- Witness for C8: the spec's example `R$ 1.234,56` parses to 1234.56. -/
theorem br_price_format_parses_witness :
    brPriceString [['1'], ['2', '3', '4']] ['5', '6'] = "R$ 1.234,56".toList
    ∧ extract_price "R$ 1.234,56".toList = some (123456 / 100) := by
  refine ⟨by decide, ?_⟩
  have h := br_price_format_parses [['1'], ['2', '3', '4']] ['5', '6']
    (by decide) (by decide) (by decide) (by decide)
  rw [show "R$ 1.234,56".toList = brPriceString [['1'], ['2', '3', '4']] ['5', '6'] from
       by decide, h]
  decide

/-! ### Claim C7: the Historical Stats Provider -/

theorem pyMin_spec (rows : List ℚ) (hne : rows ≠ []) :
    pyMin rows ∈ rows ∧ ∀ x ∈ rows, pyMin rows ≤ x := by
  cases rows with
  | nil => exact absurd rfl hne
  | cons x xs =>
    constructor
    · rcases foldl_min_choice xs x with he | he
      · rw [show pyMin (x :: xs) = xs.foldl min x from rfl, he]
        exact List.mem_cons_self _ _
      · exact List.mem_cons_of_mem x he
    · intro y hy
      rcases List.mem_cons.mp hy with rfl | hy2
      · exact init_le_foldl_min xs y
      · exact foldl_min_le_of_mem xs x y hy2

theorem pyMax_spec (rows : List ℚ) (hne : rows ≠ []) :
    pyMax rows ∈ rows ∧ ∀ x ∈ rows, x ≤ pyMax rows := by
  cases rows with
  | nil => exact absurd rfl hne
  | cons x xs =>
    constructor
    · rcases foldl_max_choice xs x with he | he
      · rw [show pyMax (x :: xs) = xs.foldl max x from rfl, he]
        exact List.mem_cons_self _ _
      · exact List.mem_cons_of_mem x he
    · intro y hy
      rcases List.mem_cons.mp hy with rfl | hy2
      · exact foldl_max_le_init xs y
      · exact le_foldl_max_of_mem xs x y hy2

/-- Python `statistics.median` lies between two members of the data (the middle
element twice for odd length, the two middle elements for even length). -/
theorem pyMedian_between (rows : List ℚ) (hne : rows ≠ []) :
    ∃ a ∈ rows, ∃ b ∈ rows, a ≤ b ∧ 2 * pyMedian rows = a + b
      ∧ a ≤ pyMedian rows ∧ pyMedian rows ≤ b := by
  have hperm : (sortAsc rows).Perm rows :=
    List.perm_insertionSort ((· ≤ ·) : ℚ → ℚ → Prop) rows
  have hsorted : List.Sorted (· ≤ ·) (sortAsc rows) :=
    List.sorted_insertionSort ((· ≤ ·) : ℚ → ℚ → Prop) rows
  have hlen : (sortAsc rows).length = rows.length := hperm.length_eq
  have hpos : 0 < rows.length := List.length_pos.mpr hne
  unfold pyMedian
  by_cases hodd : (sortAsc rows).length % 2 = 1
  · rw [if_pos hodd]
    have hidx : (sortAsc rows).length / 2 < (sortAsc rows).length := by omega
    rw [List.getD_eq_getElem _ _ hidx]
    have hmem : (sortAsc rows)[(sortAsc rows).length / 2] ∈ rows :=
      hperm.mem_iff.mp (List.getElem_mem hidx)
    exact ⟨_, hmem, _, hmem, le_refl _, by ring, le_refl _, le_refl _⟩
  · rw [if_neg hodd]
    have hj : (sortAsc rows).length / 2 < (sortAsc rows).length := by omega
    have hi : (sortAsc rows).length / 2 - 1 < (sortAsc rows).length := by omega
    have hij : (sortAsc rows).length / 2 - 1 < (sortAsc rows).length / 2 := by omega
    rw [List.getD_eq_getElem _ _ hi, List.getD_eq_getElem _ _ hj]
    have hfin : (⟨(sortAsc rows).length / 2 - 1, hi⟩ : Fin (sortAsc rows).length)
        < ⟨(sortAsc rows).length / 2, hj⟩ := hij
    have hab := hsorted.rel_get_of_lt hfin
    simp only [List.get_eq_getElem] at hab
    refine ⟨_, hperm.mem_iff.mp (List.getElem_mem hi),
            _, hperm.mem_iff.mp (List.getElem_mem hj), hab, by ring, ?_, ?_⟩
    · linarith
    · linarith

/-- C7 (amended): the provider's qualifying set is the positive subset of
the most recent 30 non-null samples (the window is cut before the
positivity filter); it returns no snapshot exactly when fewer than 3
samples qualify, and otherwise the snapshot carries the qualifying
count, a median lying between two qualifying samples (their average), the
arithmetic mean, and the minimum and maximum of exactly that set. -/
theorem stats_provider_contract (rowsDb : List (Option ℚ)) :
    (get_price_stats rowsDb = none ↔ (qualifyingRows rowsDb).length < 3)
    ∧ ∀ s : PriceStats, get_price_stats rowsDb = some s →
        s.count = (qualifyingRows rowsDb).length
        ∧ s.min ∈ qualifyingRows rowsDb
        ∧ (∀ x ∈ qualifyingRows rowsDb, s.min ≤ x)
        ∧ s.max ∈ qualifyingRows rowsDb
        ∧ (∀ x ∈ qualifyingRows rowsDb, x ≤ s.max)
        ∧ s.mean * s.count = (qualifyingRows rowsDb).sum
        ∧ ∃ a ∈ qualifyingRows rowsDb, ∃ b ∈ qualifyingRows rowsDb,
            a ≤ b ∧ 2 * s.median = a + b ∧ a ≤ s.median ∧ s.median ≤ b := by
  constructor
  · unfold get_price_stats
    by_cases h : (qualifyingRows rowsDb).length < 3
    · simp [h]
    · simp [h]
  · intro s hs
    unfold get_price_stats at hs
    by_cases h : (qualifyingRows rowsDb).length < 3
    · rw [if_pos h] at hs
      exact absurd hs (by simp)
    · rw [if_neg h] at hs
      have hne : qualifyingRows rowsDb ≠ [] := by
        intro he
        rw [he] at h
        exact h (by simp)
      obtain ⟨hmin1, hmin2⟩ := pyMin_spec _ hne
      obtain ⟨hmax1, hmax2⟩ := pyMax_spec _ hne
      obtain ⟨a, ha, b, hb, hab, hmed, ham, hmb⟩ := pyMedian_between _ hne
      have hcast : ((qualifyingRows rowsDb).length : ℚ) ≠ 0 := by
        rw [Nat.cast_ne_zero]
        omega
      have hs2 := Option.some_inj.mp hs
      subst hs2
      exact ⟨rfl, hmin1, hmin2, hmax1, hmax2, div_mul_cancel₀ _ hcast,
             a, ha, b, hb, hab, hmed, ham, hmb⟩

/-- The discriminating history for C7: the 30 most recent samples are
non-null zeros, with 3 positive samples older than them. -/
def cex7 : List (Option ℚ) := List.replicate 30 (some 0) ++ [some 5, some 6, some 7]

/-- C7 counterexample: the code's provider returns Insufficient on `cex7`
— its SQL window (`LIMIT 30` before the positivity filter) retains only
the 30 zero rows — while a provider whose window is "the most recent 30
samples with price non-null and > 0", as the claim words it, returns a
snapshot over the 3 positive samples. -/
theorem stats_window_counterexample :
    get_price_stats cex7 = none
    ∧ statsFor_spec cex7 = some ⟨3, 6, 6, 5, 7⟩ := by decide

/-- Witness for C7's amended theorem on a concrete 3-sample history. -/
theorem stats_provider_contract_witness :
    get_price_stats [some 5, some 6, some 7] = some ⟨3, 6, 6, 5, 7⟩
    ∧ (3 : ℕ) = (qualifyingRows [some 5, some 6, some 7]).length
    ∧ (5 : ℚ) ∈ qualifyingRows [some 5, some 6, some 7] :=
  ⟨by decide,
   ((stats_provider_contract [some 5, some 6, some 7]).2 ⟨3, 6, 6, 5, 7⟩ (by decide)).1,
   ((stats_provider_contract [some 5, some 6, some 7]).2 ⟨3, 6, 6, 5, 7⟩ (by decide)).2.1⟩

end PriceMonitor
